import Mathlib

/-!
# Verification of the orofacial pipeline's ephys ingestion and statistics core

This file gives a shallow embedding, in Lean 4, of the core computations of the
`pipeline` package (ephys ingestion, electrode-configuration hashing, per-unit
statistics, PSTH computation) and proves properties about them.

Conventions of the embedding:
* Python `float`/numpy arithmetic is modelled over `ℚ` (all operations used by
  the embedded code are field operations, exact on the inputs considered).
* Machine integers are modelled as `Nat`/`Int`, with explicit `% 2^32`
  reduction inside the MD5 implementation where 32-bit overflow matters.
* The datajoint store is modelled as explicit record lists threaded through the
  ingestion functions; `insert1`/`insert` append to the corresponding list.
* Python exceptions are modelled with `Option`/`Except`; for the ingestion
  `make` the error value carries the store state at the moment of the raise so
  that "what had been inserted when the error fired" is observable.
-/

/-! ## MD5 (as used by `hashlib.md5` in `pipeline/__init__.py::dict_to_hash`)

Bytes are `Nat` values `< 256`; 32-bit words are `Nat` values reduced mod
`2 ^ 32` (`w32`). The implementation follows RFC 1321: pad with `0x80`, zeros
and the 64-bit little-endian bit length, then digest 64-byte chunks with the
four-round compression function. -/

/-- Reduce a natural number to a 32-bit word. -/
def w32 (x : Nat) : Nat := x % 4294967296

/-- The 32-bit all-ones mask, used to model bitwise complement. -/
def wmask : Nat := 4294967295

/-- Left-rotation of a 32-bit word by `c` bits (`0 < c < 32`). -/
def rotl32 (x c : Nat) : Nat := w32 (x <<< c) ||| (x >>> (32 - c))

/-- MD5 per-round left-rotation amounts. -/
def md5Shifts : List Nat :=
  [7, 12, 17, 22, 7, 12, 17, 22, 7, 12, 17, 22, 7, 12, 17, 22,
   5, 9, 14, 20, 5, 9, 14, 20, 5, 9, 14, 20, 5, 9, 14, 20,
   4, 11, 16, 23, 4, 11, 16, 23, 4, 11, 16, 23, 4, 11, 16, 23,
   6, 10, 15, 21, 6, 10, 15, 21, 6, 10, 15, 21, 6, 10, 15, 21]

/-- MD5 sine-derived additive constants `⌊2^32 |sin (i+1)|⌋`. -/
def md5Consts : List Nat :=
  [3614090360, 3905402710, 606105819, 3250441966,
   4118548399, 1200080426, 2821735955, 4249261313,
   1770035416, 2336552879, 4294925233, 2304563134,
   1804603682, 4254626195, 2792965006, 1236535329,
   4129170786, 3225465664, 643717713, 3921069994,
   3593408605, 38016083, 3634488961, 3889429448,
   568446438, 3275163606, 4107603335, 1163531501,
   2850285829, 4243563512, 1735328473, 2368359562,
   4294588738, 2272392833, 1839030562, 4259657740,
   2763975236, 1272893353, 4139469664, 3200236656,
   681279174, 3936430074, 3572445317, 76029189,
   3654602809, 3873151461, 530742520, 3299628645,
   4096336452, 1126891415, 2878612391, 4237533241,
   1700485571, 2399980690, 4293915773, 2240044497,
   1873313359, 4264355552, 2734768916, 1309151649,
   4149444226, 3174756917, 718787259, 3951481745]

/-- Round function and message-word index of MD5 round `i`. -/
def md5Mix (i b c d : Nat) : Nat × Nat :=
  if i < 16 then ((b &&& c) ||| ((b ^^^ wmask) &&& d), i)
  else if i < 32 then ((d &&& b) ||| ((d ^^^ wmask) &&& c), (5 * i + 1) % 16)
  else if i < 48 then (b ^^^ c ^^^ d, (3 * i + 5) % 16)
  else (c ^^^ (b ||| (d ^^^ wmask)), (7 * i) % 16)

/-- One MD5 round applied to the state `(a, b, c, d)`. -/
def md5Round (M : List Nat) (st : Nat × Nat × Nat × Nat) (i : Nat) :
    Nat × Nat × Nat × Nat :=
  let a := st.1
  let b := st.2.1
  let c := st.2.2.1
  let d := st.2.2.2
  let fg := md5Mix i b c d
  let f := w32 (fg.1 + a + md5Consts.getD i 0 + M.getD fg.2 0)
  (d, w32 (b + rotl32 f (md5Shifts.getD i 0)), b, c)

/-- Digest one 16-word chunk into the running MD5 state. -/
def md5Chunk (h : Nat × Nat × Nat × Nat) (M : List Nat) : Nat × Nat × Nat × Nat :=
  let r := (List.range 64).foldl (md5Round M) h
  (w32 (h.1 + r.1), w32 (h.2.1 + r.2.1), w32 (h.2.2.1 + r.2.2.1), w32 (h.2.2.2 + r.2.2.2))

/-- Little-endian byte decomposition of `x` into `n` bytes. -/
def leBytes : Nat → Nat → List Nat
  | 0, _ => []
  | n + 1, x => (x % 256) :: leBytes n (x / 256)

/-- Group a little-endian byte list into 32-bit words. -/
def leWords : List Nat → List Nat
  | b0 :: b1 :: b2 :: b3 :: rest =>
      (b0 + 256 * b1 + 65536 * b2 + 16777216 * b3) :: leWords rest
  | _ => []

/-- Split a byte list into 64-byte chunks. -/
def chunks64 (l : List Nat) : List (List Nat) :=
  if l = [] then [] else l.take 64 :: chunks64 (l.drop 64)
termination_by l.length
decreasing_by
  simp only [List.length_drop]
  have : 0 < l.length := List.length_pos.mpr (by assumption)
  omega

/-- MD5 padding: `0x80`, zero bytes to 56 mod 64, then the 64-bit bit length. -/
def md5Pad (msg : List Nat) : List Nat :=
  let len := msg.length
  let z := (119 - len % 64) % 64
  msg ++ [128] ++ List.replicate z 0 ++ leBytes 8 (8 * len)

/-- MD5 digest of a byte list, as the 16 digest bytes. -/
def md5Bytes (msg : List Nat) : List Nat :=
  let h := (chunks64 (md5Pad msg)).foldl (fun h ch => md5Chunk h (leWords ch))
    (1732584193, 4023233417, 2562383102, 271733878)
  leBytes 4 h.1 ++ leBytes 4 h.2.1 ++ leBytes 4 h.2.2.1 ++ leBytes 4 h.2.2.2

/-- Lower-case hex digit. -/
def hexDigit (n : Nat) : Char := if n < 10 then Char.ofNat (48 + n) else Char.ofNat (87 + n)

/-- Lower-case hex string of a byte list (`hexdigest`). -/
def bytesHex (bs : List Nat) : String :=
  String.mk ((bs.map (fun b => [hexDigit (b / 16), hexDigit (b % 16)])).flatten)

/-- UTF-8 encoding of a character (`str.encode()` on each character). -/
def utf8Bytes (c : Char) : List Nat :=
  let n := c.toNat
  if n < 128 then [n]
  else if n < 2048 then [192 + n / 64, 128 + n % 64]
  else if n < 65536 then [224 + n / 4096, 128 + (n / 64) % 64, 128 + n % 64]
  else [240 + n / 262144, 128 + (n / 4096) % 64, 128 + (n / 64) % 64, 128 + n % 64]

/-- UTF-8 bytes of a string. -/
def strBytes (s : String) : List Nat := (s.data.map utf8Bytes).flatten

/-! ## `dict_to_hash` (`pipeline/__init__.py`)

```python
def dict_to_hash(key):
    hashed = hashlib.md5()
    for k, v in sorted(key.items()):
        hashed.update(str(k).encode())
        hashed.update(str(v).encode())
    return hashed.hexdigest()
```

A Python dict is modelled as an association list with pairwise-distinct keys,
carried in its (insertion-order) presentation; actual uses have `int` keys (an
electrode index) and `dict` values, so keys are `Nat` and a value is its `str()`
rendering. `sorted(key.items())` compares `(k, v)` tuples, which on distinct
keys orders purely by key; it is modelled by `List.insertionSort` on the first
component. Feeding `str(k)` then `str(v)` per item into the running MD5 equals
hashing the concatenation of all those encodings. -/

/-- Tuple comparison used by `sorted(key.items())` restricted to distinct keys:
order by key. -/
def itemKeyLe (a b : Nat × String) : Prop := a.1 ≤ b.1

instance : DecidableRel itemKeyLe := fun a b => Nat.decLe a.1 b.1

instance : IsTotal (Nat × String) itemKeyLe := ⟨fun a b => Nat.le_total a.1 b.1⟩

instance : IsTrans (Nat × String) itemKeyLe := ⟨fun _ _ _ h1 h2 => Nat.le_trans h1 h2⟩

/-- `dict_to_hash`: MD5 hex digest of the concatenated `str(k)`/`str(v)`
encodings of the items sorted by key. -/
def dict_to_hash (key : List (Nat × String)) : String :=
  bytesHex (md5Bytes
    (((List.insertionSort itemKeyLe key).map
      (fun p => strBytes (Nat.repr p.1) ++ strBytes p.2)).flatten))

/-- Strict-key order on items; antisymmetric, so two sorted presentations of
the same item multiset with distinct keys coincide. -/
def itemKeyLt (a b : Nat × String) : Prop := a.1 < b.1

instance : IsAntisymm (Nat × String) itemKeyLt :=
  ⟨fun _ _ h1 h2 => absurd (Nat.lt_trans h1 h2) (Nat.lt_irrefl _)⟩

lemma sorted_itemKeyLt_of_nodup {l : List (Nat × String)}
    (hs : l.Sorted itemKeyLe) (hnd : (l.map Prod.fst).Nodup) :
    l.Sorted itemKeyLt := by
  have hne : l.Pairwise (fun a b : Nat × String => a.1 ≠ b.1) := by
    rw [List.Nodup, List.pairwise_map] at hnd
    exact hnd
  exact (hs.and hne).imp (fun h => Nat.lt_of_le_of_ne h.1 h.2)

/-- Two presentations of the same key-distinct item collection sort to the
same list. -/
lemma insertionSort_eq_of_perm {l₁ l₂ : List (Nat × String)}
    (hnd : (l₁.map Prod.fst).Nodup) (hp : l₁.Perm l₂) :
    List.insertionSort itemKeyLe l₁ = List.insertionSort itemKeyLe l₂ := by
  have hperm : (List.insertionSort itemKeyLe l₁).Perm (List.insertionSort itemKeyLe l₂) :=
    (List.perm_insertionSort itemKeyLe l₁).trans
      (hp.trans (List.perm_insertionSort itemKeyLe l₂).symm)
  have hnd₁ : ((List.insertionSort itemKeyLe l₁).map Prod.fst).Nodup :=
    (((List.perm_insertionSort itemKeyLe l₁).map Prod.fst).nodup_iff).mpr hnd
  have hnd₂ : ((List.insertionSort itemKeyLe l₂).map Prod.fst).Nodup :=
    ((hperm.symm.map Prod.fst).nodup_iff).mpr hnd₁
  exact List.eq_of_perm_of_sorted hperm
    (sorted_itemKeyLt_of_nodup (List.sorted_insertionSort itemKeyLe l₁) hnd₁)
    (sorted_itemKeyLt_of_nodup (List.sorted_insertionSort itemKeyLe l₂) hnd₂)

/-- C5: `dict_to_hash` is a pure deterministic function of the mapping's
key-value contents: presenting the same electrode-metadata mapping (an
association list with pairwise-distinct keys) in any two insertion orders
yields the identical digest. Reproducibility across runs is intrinsic: the
embedding is a pure function of its argument. -/
theorem dict_to_hash_order_independent (l₁ l₂ : List (Nat × String))
    (hnd : (l₁.map Prod.fst).Nodup) (hp : l₁.Perm l₂) :
    dict_to_hash l₁ = dict_to_hash l₂ := by
  unfold dict_to_hash
  rw [insertionSort_eq_of_perm hnd hp]

/-- Witness for C5 at a concrete mapping presented in two orders. -/
theorem dict_to_hash_order_independent_witness :
    dict_to_hash [(2, "b"), (1, "a")] = dict_to_hash [(1, "a"), (2, "b")] :=
  dict_to_hash_order_independent [(2, "b"), (1, "a")] [(1, "a"), (2, "b")]
    (by decide) (by decide)

/-! ## `_gen_electrode_config` (`pipeline/ingest/ephys_ingest.py`)

The datajoint tables `lab.ElectrodeConfig`, `.ElectrodeGroup` and `.Electrode`
are modelled as row lists in `ECState`. A probe's fetched `lab.Probe` row and
the per-electrode `ProbeType.Electrode` primary-key records (whose `str()`
feeds `dict_to_hash`) are environment data (`ECEnv`): the store of electrode
geometry is fixed during one ingestion call. -/

/-- A `lab.ElectrodeConfig` row. -/
structure ECRow where
  probe_key : String
  electrode_config_name : String
  electrode_config_hash : String
deriving DecidableEq

/-- A `lab.ElectrodeConfig.ElectrodeGroup` row. -/
structure ECGroupRow where
  probe_key : String
  electrode_config_name : String
  electrode_group : Nat
deriving DecidableEq

/-- A `lab.ElectrodeConfig.Electrode` row. -/
structure ECElectrodeRow where
  probe_key : String
  electrode_config_name : String
  electrode : Nat
deriving DecidableEq

/-- The three `lab.ElectrodeConfig` tables. -/
structure ECState where
  configs : List ECRow
  groups : List ECGroupRow
  config_electrodes : List ECElectrodeRow
deriving DecidableEq

/-- The key returned by `_gen_electrode_config` (`e_config`): the probe row's
attributes plus the configuration name. -/
structure ECKey where
  probe_key : String
  electrode_config_name : String
deriving DecidableEq

/-- Environment: the fetched `lab.Probe` row (opaque) and, per electrode index,
the `str()` of its `ProbeType.Electrode` KEY record. -/
structure ECEnv where
  probe_key : String
  meta : Nat → String

/-- Python dict construction from a key-value sequence: later bindings of an
existing key overwrite in place, new keys append. -/
def pyDict (l : List (Nat × String)) : List (Nat × String) :=
  l.foldl (fun acc p =>
    if acc.any (fun q => q.1 == p.1)
    then acc.map (fun q => if q.1 == p.1 then p else q)
    else acc ++ [p]) []

/-- The maximal ranges of the sorted electrode list, split where the gap to the
previous element exceeds 1; embeds the `el_jumps` computation
(`np.where(np.diff(el_list) > 1)` plus the sentinel indices `-1` and
`len - 1`), each `(s, e)` pair standing for `el_list[s+1] - el_list[e]`. -/
def ecRanges : Nat → Nat → List Nat → List (Nat × Nat)
  | start, prev, [] => [(start, prev)]
  | start, prev, x :: xs =>
      if x - prev > 1 then (start, prev) :: ecRanges x x xs else ecRanges start x xs

/-- The human-readable configuration name `ec_name`: sort the electrode list,
render each gap-delimited range as `"{start}-{end}"`, join with `"; "`. On an
empty electrode list the source raises `IndexError` (`el_list[s + 1]` with
`el_list = []`), modelled as `none`. -/
def ecNameCore (l : List Nat) : Option String :=
  match List.insertionSort (fun a b : Nat => a ≤ b) l with
  | [] => none
  | x :: xs =>
      some (String.intercalate "; "
        ((ecRanges x x xs).map (fun r => Nat.repr r.1 ++ "-" ++ Nat.repr r.2)))

/-- `_gen_electrode_config(probe_key, electrode_list)`: compute the content
hash of the electrode-to-KEY mapping and the range name; insert the
configuration (with its fixed group 0 and per-electrode rows) only when no
stored configuration carries the hash; return `e_config` either way. -/
def gen_electrode_config (env : ECEnv) (electrode_list : List Nat) (st : ECState) :
    Option (ECKey × ECState) :=
  let eg_members := electrode_list.map (fun eid => (eid, env.meta eid))
  let ec_hash := dict_to_hash (pyDict eg_members)
  match ecNameCore (eg_members.map Prod.fst) with
  | none => none
  | some ec_name =>
      let e_config : ECKey := ⟨env.probe_key, ec_name⟩
      if st.configs.any (fun r => r.electrode_config_hash == ec_hash) then
        some (e_config, st)
      else
        some (e_config,
          { configs := st.configs ++ [⟨env.probe_key, ec_name, ec_hash⟩],
            groups := st.groups ++ [⟨env.probe_key, ec_name, 0⟩],
            config_electrodes := st.config_electrodes ++
              eg_members.map (fun m => ⟨env.probe_key, ec_name, m.1⟩) })

lemma ecNameCore_isSome {l : List Nat} (h : l ≠ []) : ∃ s, ecNameCore l = some s := by
  unfold ecNameCore
  cases hs : List.insertionSort (fun a b : Nat => a ≤ b) l with
  | nil =>
      exfalso
      have := List.length_insertionSort (fun a b : Nat => a ≤ b) l
      rw [hs] at this
      exact h (List.eq_nil_of_length_eq_zero this.symm)
  | cons x xs => exact ⟨_, rfl⟩

/-- Hash uniqueness invariant of the `lab.ElectrodeConfig` table (the schema
declares `unique index (electrode_config_hash)`). -/
def hashesNodup (st : ECState) : Prop :=
  (st.configs.map ECRow.electrode_config_hash).Nodup

/-- C4, amended to nonempty electrode lists (on the empty list the source
raises `IndexError` while building the name and returns no key): resolving the
configuration twice with identical electrode list and metadata yields the same
key both times, the second resolution leaves the store unchanged, and hash
uniqueness of the stored configurations is preserved. -/
theorem gen_electrode_config_dedup (env : ECEnv) (l : List Nat) (st : ECState)
    (hne : l ≠ []) :
    ∃ k st', gen_electrode_config env l st = some (k, st') ∧
      gen_electrode_config env l st' = some (k, st') ∧
      (hashesNodup st → hashesNodup st') := by
  have hmapne : (l.map (fun eid => (eid, env.meta eid))).map Prod.fst ≠ [] := by
    intro hcon
    apply hne
    have := congrArg List.length hcon
    simp only [List.length_map, List.length_nil] at this
    exact List.eq_nil_of_length_eq_zero this
  obtain ⟨nm, hnm⟩ := ecNameCore_isSome hmapne
  by_cases hany : (st.configs.any (fun r => r.electrode_config_hash ==
      dict_to_hash (pyDict (l.map (fun eid => (eid, env.meta eid)))))) = true
  · refine ⟨⟨env.probe_key, nm⟩, st, ?_, ?_, fun h => h⟩ <;>
      simp only [gen_electrode_config, hnm, hany, if_true]
  · set hsh := dict_to_hash (pyDict (l.map (fun eid => (eid, env.meta eid)))) with hdef
    set st' : ECState :=
      { configs := st.configs ++ [⟨env.probe_key, nm, hsh⟩],
        groups := st.groups ++ [⟨env.probe_key, nm, 0⟩],
        config_electrodes := st.config_electrodes ++
          (l.map (fun eid => (eid, env.meta eid))).map
            (fun m => ⟨env.probe_key, nm, m.1⟩) } with hst'
    have hany' : (st'.configs.any (fun r => r.electrode_config_hash == hsh)) = true := by
      simp [hst', List.any_append]
    refine ⟨⟨env.probe_key, nm⟩, st', ?_, ?_, ?_⟩
    · simp only [gen_electrode_config, hnm, hany, if_false, Bool.false_eq_true, if_neg,
        not_false_iff]
    · simp only [gen_electrode_config, hnm, hany', if_true]
    · intro hnd
      have hnotmem : hsh ∉ st.configs.map ECRow.electrode_config_hash := by
        intro hmem
        obtain ⟨r, hr, hrh⟩ := List.mem_map.mp hmem
        have : (st.configs.any (fun r => r.electrode_config_hash == hsh)) = true :=
          List.any_eq_true.mpr ⟨r, hr, beq_iff_eq.mpr hrh⟩
        exact hany this
      unfold hashesNodup at hnd ⊢
      simp only [hst', List.map_append, List.map_cons, List.map_nil]
      exact List.Nodup.append hnd (List.nodup_singleton hsh)
        (List.disjoint_singleton.mpr hnotmem)

/-- C4 counterexample at the empty electrode list: the claim quantifies over
every electrode list, but resolving an empty list raises `IndexError`
(`el_list[s + 1]` with `el_list = []`) before any lookup or insert, so no
configuration key is returned at all. -/
theorem gen_electrode_config_empty_fails :
    gen_electrode_config ⟨"probe0", fun _ => "m"⟩ [] ⟨[], [], []⟩ = none := rfl

/-- Witness for the amended C4 at a concrete environment, electrode list and
empty initial store. -/
theorem gen_electrode_config_dedup_witness :
    ∃ k st', gen_electrode_config ⟨"probe0", fun e => Nat.repr e⟩ [1, 2] ⟨[], [], []⟩ =
        some (k, st') ∧
      gen_electrode_config ⟨"probe0", fun e => Nat.repr e⟩ [1, 2] st' = some (k, st') ∧
      (hashesNodup (⟨[], [], []⟩ : ECState) → hashesNodup st') :=
  gen_electrode_config_dedup ⟨"probe0", fun e => Nat.repr e⟩ [1, 2] ⟨[], [], []⟩ (by decide)

/-! ## C10: range rendering of the electrode-configuration name -/

/-- Rendering of the maximal runs of consecutive integers of a strictly
increasing sequence, written from the claim: each maximal run — a singleton
included — is rendered as `"{start}-{end}"`. `s` is the start of the current
run, `p` its last element so far. -/
def runsRender : Nat → Nat → List Nat → List String
  | s, p, [] => [Nat.repr s ++ "-" ++ Nat.repr p]
  | s, p, x :: xs =>
      if x = p + 1 then runsRender s x xs
      else (Nat.repr s ++ "-" ++ Nat.repr p) :: runsRender x x xs

/-- The claim's rendering of a whole electrode index list: maximal runs of
consecutive indices, each as `"{start}-{end}"`, joined by `"; "`. -/
def specRunsName : List Nat → Option String
  | [] => none
  | x :: xs => some (String.intercalate "; " (runsRender x x xs))

lemma ecRanges_render_eq (xs : List Nat) : ∀ s p : Nat,
    List.Chain' (· < ·) (p :: xs) →
    (ecRanges s p xs).map (fun r => Nat.repr r.1 ++ "-" ++ Nat.repr r.2) =
      runsRender s p xs := by
  induction xs with
  | nil => intro s p _; rfl
  | cons x xs ih =>
      intro s p hch
      have hpx : p < x := (List.chain'_cons.mp hch).1
      have htail : List.Chain' (· < ·) (x :: xs) := (List.chain'_cons.mp hch).2
      by_cases hx : x = p + 1
      · have hgap : ¬ (x - p > 1) := by omega
        simp only [ecRanges, runsRender, if_neg hgap, if_pos hx]
        exact ih s x htail
      · have hgap : x - p > 1 := by omega
        simp only [ecRanges, runsRender, if_pos hgap, if_neg hx, List.map_cons]
        exact congrArg _ (ih x x htail)

/-- C10: for a strictly increasing electrode index list, the configuration
name renders every maximal run of consecutive indices — runs of length one
included — as `"{start}-{end}"`, joined by `"; "` (a singleton `m` appears as
`"m-m"`). -/
theorem ecName_renders_runs (l : List Nat) (h : List.Chain' (· < ·) l) :
    ecNameCore l = specRunsName l := by
  have hsorted : List.Sorted (fun a b : Nat => a ≤ b) l :=
    ((List.chain'_iff_pairwise).mp h).imp Nat.le_of_lt
  unfold ecNameCore
  rw [List.Sorted.insertionSort_eq hsorted]
  cases l with
  | nil => rfl
  | cons x xs =>
      simp only [specRunsName]
      rw [ecRanges_render_eq xs x x h]

/-- Witness for C10 at the electrode list `[1, 2, 3, 5]`: the singleton run
`5` is rendered `"5-5"`, giving `"1-3; 5-5"`. -/
theorem ecName_renders_runs_witness :
    ecNameCore [1, 2, 3, 5] = specRunsName [1, 2, 3, 5] ∧
      ecNameCore [1, 2, 3, 5] = some "1-3; 5-5" :=
  ⟨ecName_renders_runs [1, 2, 3, 5] (by norm_num [List.chain'_cons]),
   (ecName_renders_runs [1, 2, 3, 5] (by norm_num [List.chain'_cons])).trans (by decide)⟩

/-! ## `UnitStat.make` (`pipeline/ephys.py`)

```python
isi_threshold = 0.002
min_isi = 0

trial_spikes, tr_start, tr_stop = ... fetch ...
isis = np.hstack(np.diff(spks) for spks in trial_spikes)
if isis.size > 0:
    processed_trial_spikes = []
    for spike_train in trial_spikes:
        duplicate_spikes = np.where(np.diff(spike_train) <= self.min_isi)[0]
        processed_trial_spikes.append(np.delete(spike_train, duplicate_spikes + 1))
    num_spikes = len(np.hstack(processed_trial_spikes))
    avg_firing_rate = num_spikes / float(sum(tr_stop - tr_start))
    num_violations = sum(isis < self.isi_threshold)
    violation_time = 2 * num_spikes * (self.isi_threshold - self.min_isi)
    violation_rate = num_violations / violation_time
    fpRate = violation_rate / avg_firing_rate
    yield ..., 'isi_violation': fpRate, 'avg_firing_rate': avg_firing_rate
else:
    yield ..., 'isi_violation': None, 'avg_firing_rate': None
```

The per-unit computation is embedded as `unitStatMake` over the unit's fetched
trial rows. `np.delete(train, where(np.diff(train) <= m)[0] + 1)` removes
exactly the entries whose difference from their original predecessor is `≤ m`
(the indices in `duplicate_spikes + 1` address the original array), which is
the recursion `removeDuplicateSpikes`. Nullable stored floats are `Option ℚ`.
(For a unit with an empty fetched trial set `np.hstack` of an empty sequence
raises; the claims below only concern units with at least one trial.) -/

/-- `np.diff`: consecutive differences. -/
def npDiff (l : List ℚ) : List ℚ := List.zipWith (fun a b => a - b) l.tail l

/-- `UnitStat.isi_threshold = 0.002`. -/
def isi_threshold : ℚ := 2 / 1000

/-- `UnitStat.min_isi = 0`. -/
def min_isi : ℚ := 0

/-- Tail of duplicate-spike removal: `p` is the element's predecessor in the
ORIGINAL train (`np.diff` is taken on the original array). -/
def removeDupGo (m : ℚ) : ℚ → List ℚ → List ℚ
  | _, [] => []
  | p, y :: ys => if y - p ≤ m then removeDupGo m y ys else y :: removeDupGo m y ys

/-- `np.delete(spike_train, np.where(np.diff(spike_train) <= m)[0] + 1)`:
drop every spike whose interval from the immediately preceding original spike
is `≤ m`, keeping the earlier spike (the head always survives). -/
def removeDuplicateSpikes (m : ℚ) : List ℚ → List ℚ
  | [] => []
  | x :: xs => x :: removeDupGo m x xs

/-- One fetched `Unit.TrialSpikes * SessionTrial` row. -/
structure TrialData where
  spike_times : List ℚ
  start_time : ℚ
  stop_time : ℚ
deriving DecidableEq

/-- The per-unit body of `UnitStat.make`: `(isi_violation, avg_firing_rate)`,
`none` standing for SQL null. -/
def unitStatMake (trials : List TrialData) : Option ℚ × Option ℚ :=
  let isis := (trials.map (fun t => npDiff t.spike_times)).flatten
  if 0 < isis.length then
    let processed := trials.map (fun t => removeDuplicateSpikes min_isi t.spike_times)
    let num_spikes := processed.flatten.length
    let avg_firing_rate := (num_spikes : ℚ) /
      ((trials.map (fun t => t.stop_time - t.start_time)).sum)
    let num_violations := (isis.filter (fun x => decide (x < isi_threshold))).length
    let violation_time := 2 * (num_spikes : ℚ) * (isi_threshold - min_isi)
    let violation_rate := (num_violations : ℚ) / violation_time
    (some (violation_rate / avg_firing_rate), some avg_firing_rate)
  else (none, none)

/-- C3 counterexample: for a unit whose single trial holds exactly one spike
(trial `[0, 2)`, one spike at `t = 1`), the claim asserts that
`avg_firing_rate` is stored as `1 / (stop - start) = 1/2`; the code instead
takes the `isis.size == 0` branch and stores null for BOTH statistics. -/
theorem unitStat_single_spike_rate_not_computed :
    (unitStatMake [⟨[1], 0, 2⟩]).2 ≠ some ((1 : ℚ) / (2 - 0)) := by decide

/-- C3, amended: a unit with a single trial containing exactly one spike
yields `isi_violation = null` AND `avg_firing_rate = null` (the whole
computation is skipped, so no division is ever attempted — consistent with the
spec's §4.5 edge case for units with zero inter-spike intervals). -/
theorem unitStat_single_spike_null (x s e : ℚ) :
    unitStatMake [⟨[x], s, e⟩] = (none, none) := rfl

/-- C7: for a unit whose trial trains contain at least one inter-spike
interval, `UnitStat.make` stores
`avg_firing_rate = (surviving spikes summed over trials) / (Σ (stop - start))`
and `isi_violation = (num_violations / violation_time) / avg_firing_rate`,
where `num_violations` counts the original (pre-deduplication) intervals
strictly below `0.002 s` and `violation_time = 2 · surviving · (0.002 - 0)`.
The right-hand side is phrased per the claim (per-trial counts summed); the
code counts over `np.hstack` concatenations instead. -/
theorem unitStat_formula (trials : List TrialData)
    (h : 0 < ((trials.map (fun t => npDiff t.spike_times)).flatten).length) :
    unitStatMake trials =
      (some
        (((((trials.map (fun t => ((npDiff t.spike_times).filter
                (fun x => decide (x < 2 / 1000))).length)).sum : ℚ)) /
          (2 * ((trials.map (fun t =>
                (removeDuplicateSpikes 0 t.spike_times).length)).sum : ℚ) *
            (2 / 1000 - 0))) /
         (((trials.map (fun t =>
              (removeDuplicateSpikes 0 t.spike_times).length)).sum : ℚ) /
           ((trials.map (fun t => t.stop_time - t.start_time)).sum))),
       some
        (((trials.map (fun t =>
              (removeDuplicateSpikes 0 t.spike_times).length)).sum : ℚ) /
          ((trials.map (fun t => t.stop_time - t.start_time)).sum))) := by
  have hnum :
      (((trials.map (fun t => removeDuplicateSpikes min_isi t.spike_times)).flatten.length : ℕ) : ℚ) =
        ((trials.map (fun t => (removeDuplicateSpikes 0 t.spike_times).length)).sum : ℚ) := by
    rw [List.length_flatten, List.map_map]
    norm_num [min_isi, Function.comp_def]
  have hviol :
      ((((trials.map (fun t => npDiff t.spike_times)).flatten.filter
          (fun x => decide (x < isi_threshold))).length : ℕ) : ℚ) =
        ((trials.map (fun t => ((npDiff t.spike_times).filter
            (fun x => decide (x < 2 / 1000))).length)).sum : ℚ) := by
    rw [List.filter_flatten, List.length_flatten, List.map_map, List.map_map]
    norm_num [isi_threshold, Function.comp_def]
  simp only [unitStatMake, if_pos h]
  rw [hnum, hviol]
  norm_num [isi_threshold, min_isi]

/-- Witness for C7: the claim's E2E scenario — two trials with durations 2 s
and 3 s and surviving spike counts 4 and 6 give `avg_firing_rate = 2 Hz`
(all intervals are 0.5 s, so the violation statistic is 0). -/
theorem unitStat_formula_witness :
    unitStatMake [⟨[0, 1/2, 1, 3/2], 0, 2⟩, ⟨[0, 1/2, 1, 3/2, 2, 5/2], 0, 3⟩] =
      (some 0, some 2) :=
  (unitStat_formula [⟨[0, 1/2, 1, 3/2], 0, 2⟩, ⟨[0, 1/2, 1, 3/2, 2, 5/2], 0, 3⟩]
    (by decide)).trans
    (by norm_num [npDiff, removeDuplicateSpikes, removeDupGo])

/-! ## C9: idempotence of duplicate-spike removal -/

lemma removeDupGo_chain_gap (m : ℚ) : ∀ (ys : List ℚ) (p q : ℚ), q ≤ p →
    List.Chain' (fun a b : ℚ => a ≤ b) (p :: ys) →
    List.Chain' (fun a b : ℚ => m < b - a) (q :: removeDupGo m p ys) := by
  intro ys
  induction ys with
  | nil => intro p q _ _; simp [removeDupGo]
  | cons y ys ih =>
      intro p q hqp hch
      have hpy : p ≤ y := (List.chain'_cons.mp hch).1
      have htail : List.Chain' (fun a b : ℚ => a ≤ b) (y :: ys) := (List.chain'_cons.mp hch).2
      by_cases hyp : y - p ≤ m
      · simp only [removeDupGo, if_pos hyp]
        exact ih y q (le_trans hqp hpy) htail
      · simp only [removeDupGo, if_neg hyp]
        rw [List.chain'_cons]
        constructor
        · have : y - p ≤ y - q := by linarith
          linarith [lt_of_not_le hyp]
        · exact ih y y (le_refl y) htail

lemma removeDupGo_of_chain_gap (m : ℚ) : ∀ (xs : List ℚ) (x : ℚ),
    List.Chain' (fun a b : ℚ => m < b - a) (x :: xs) → removeDupGo m x xs = xs := by
  intro xs
  induction xs with
  | nil => intro x _; rfl
  | cons y ys ih =>
      intro x hch
      have hxy : m < y - x := (List.chain'_cons.mp hch).1
      have htail := (List.chain'_cons.mp hch).2
      simp only [removeDupGo, if_neg (not_le_of_lt hxy)]
      rw [ih y htail]

/-- C9: duplicate-spike removal is idempotent — for every nondecreasing trial
spike train and nonnegative minimum-ISI threshold, re-running the removal step
on its own output returns that output unchanged. (Nondecreasing order is how
trial spike trains are stored; each surviving spike's gap to the surviving
spike before it exceeds the threshold, so no further spike is dropped.) -/
theorem removeDuplicateSpikes_idempotent (m : ℚ) (t : List ℚ)
    (_hm : 0 ≤ m) (hsorted : List.Chain' (fun a b : ℚ => a ≤ b) t) :
    removeDuplicateSpikes m (removeDuplicateSpikes m t) = removeDuplicateSpikes m t := by
  cases t with
  | nil => rfl
  | cons x xs =>
      have hchain := removeDupGo_chain_gap m xs x x (le_refl x) hsorted
      show removeDuplicateSpikes m (x :: removeDupGo m x xs) = x :: removeDupGo m x xs
      simp only [removeDuplicateSpikes]
      rw [removeDupGo_of_chain_gap m _ x hchain]

/-- Witness for C9 at threshold 0 and the train `[0, 0, 1]` (whose
deduplication drops the repeated `0`). -/
theorem removeDuplicateSpikes_idempotent_witness :
    removeDuplicateSpikes 0 (removeDuplicateSpikes 0 [0, 0, 1]) =
        removeDuplicateSpikes 0 [0, 0, 1] ∧
      removeDuplicateSpikes 0 [0, 0, 1] = [0, 1] :=
  ⟨removeDuplicateSpikes_idempotent 0 [0, 0, 1] (le_refl 0)
      (by norm_num [List.chain'_cons]),
   by norm_num [removeDuplicateSpikes, removeDupGo]⟩

/-! ## `UnitPsth` (`pipeline/psth.py`) -/

/-- `UnitPsth.psth_params['xmin'] = -3`. -/
def psth_xmin : ℚ := -3

/-- `UnitPsth.psth_params['xmax'] = 3`. -/
def psth_xmax : ℚ := 3

/-- `UnitPsth.psth_params['binsize'] = 0.04`. -/
def psth_binsize : ℚ := 1 / 25

/-- `np.arange(start, stop, step)` for positive `step`: the values
`start + k * step` for `k < ⌈(stop - start) / step⌉` (the stop value itself is
excluded). -/
def npArange (start stop step : ℚ) : List ℚ :=
  (List.range (Int.ceil ((stop - start) / step)).toNat).map
    (fun k => start + (k : ℚ) * step)

/-- `np.histogram(spikes, bins=edges)` with monotonically increasing explicit
bin edges: one count per consecutive edge pair, each bin `[lo, hi)` half-open
except the rightmost bin, which is closed `[lo, hi]`. Values outside
`[edges.head, edges.last]` are not counted. -/
def npHistogram (spikes : List ℚ) : List ℚ → List Nat
  | lo :: hi :: rest =>
      (if rest = [] then
        (spikes.filter (fun x => decide (lo ≤ x) && decide (x ≤ hi))).length
      else
        (spikes.filter (fun x => decide (lo ≤ x) && decide (x < hi))).length) ::
      npHistogram spikes (hi :: rest)
  | _ => []

/-- `UnitPsth.compute_psth(session_unit_spikes)`: concatenate the per-trial
trains, histogram them over `np.arange(xmin, xmax, binsize)` edges, divide by
trial count and bin size, and pair with `edges[1:]`. -/
def compute_psth (session_unit_spikes : List (List ℚ)) : List ℚ × List ℚ :=
  let spikes := session_unit_spikes.flatten
  let edges := npArange psth_xmin psth_xmax psth_binsize
  let psth := npHistogram spikes edges
  (psth.map (fun c : Nat => (c : ℚ) / (session_unit_spikes.length : ℚ) / psth_binsize),
   edges.tail)

/-- The storing part of `UnitPsth.make`: when the fetch returns zero per-trial
spike rows (`len(spikes) == 0`) the row is inserted WITHOUT `unit_psth`, i.e.
null; otherwise `compute_psth` of the fetched trains is stored. -/
def unitPsthMake (fetched : List (List ℚ)) : Option (List ℚ × List ℚ) :=
  if fetched.length = 0 then none else some (compute_psth fetched)

/-- The bin-edge formula of the claim: `-3 + k · 0.04`. -/
def psthEdge (k : Nat) : ℚ := -3 + (k : ℚ) * (1 / 25)

/-- The PSTH the claim describes, written from the claim's words: rate curve
with one bin of width 0.04 for EVERY sub-interval of the window `[-3, 3)`
(150 bins), each rate `count / (trial count × bin width)`, paired with the
bins' right edges. -/
def claimPsth (trains : List (List ℚ)) : List ℚ × List ℚ :=
  ((List.range 150).map (fun k =>
      ((trains.flatten.filter (fun x =>
          decide (psthEdge k ≤ x) && decide (x < psthEdge (k + 1)))).length : ℚ) /
        ((trains.length : ℚ) * (1 / 25))),
   (List.range 150).map (fun k => psthEdge (k + 1)))

/-- The claim's rate formula restricted to the bins the code actually
produces: 149 bins with edges `-3 + k · 0.04`, `k ≤ 149` (so the window is
`[-3, 2.96]`, the last bin right-closed). -/
def claimPsthAmended (trains : List (List ℚ)) : List ℚ × List ℚ :=
  ((List.range 149).map (fun k =>
      ((trains.flatten.filter (fun x =>
          decide (psthEdge k ≤ x) &&
          (if k + 1 = 149 then decide (x ≤ psthEdge (k + 1))
           else decide (x < psthEdge (k + 1))))).length : ℚ) /
        ((trains.length : ℚ) * (1 / 25))),
   (List.range 149).map (fun k => psthEdge (k + 1)))

lemma npHistogram_range' (spikes : List ℚ) (e : Nat → ℚ) :
    ∀ (n s : Nat), npHistogram spikes ((List.range' s (n + 1)).map e) =
      (List.range' s n).map (fun k =>
        (spikes.filter (fun x => decide (e k ≤ x) &&
          (if k + 1 = s + n then decide (x ≤ e (k + 1))
           else decide (x < e (k + 1))))).length) := by
  intro n
  induction n with
  | zero => intro s; rfl
  | succ n ih =>
      intro s
      rw [List.range'_succ s (n + 1), List.map_cons,
        List.range'_succ (s + 1) n, List.map_cons]
      cases n with
      | zero =>
          simp only [List.range', List.map_nil, npHistogram, if_pos rfl]
          simp only [List.range'_succ s 1, List.range', List.map_cons, List.map_nil]
          have hlast : s + 1 = s + 1 := rfl
          simp [hlast]
      | succ m =>
          rw [List.range'_succ (s + 2) m, List.map_cons]
          show (if ((e (s + 2) :: (List.range' (s + 3) m).map e) = []) then _ else _) ::
              npHistogram spikes (e (s + 1) :: e (s + 2) :: (List.range' (s + 3) m).map e) = _
          rw [if_neg (by simp)]
          rw [show (e (s + 1) :: e (s + 2) :: (List.range' (s + 3) m).map e) =
              ((List.range' (s + 1) (m + 2)).map e) by
            rw [List.range'_succ (s + 1) (m + 1), List.map_cons,
              List.range'_succ (s + 2) m, List.map_cons]]
          rw [ih (s + 1)]
          rw [List.range'_succ s (m + 1), List.map_cons]
          have hcond : (s + 1 = s + (m + 1 + 1)) = False := eq_false (by omega)
          simp only [hcond, if_false]
          rw [show s + 1 + (m + 1) = s + (m + 1 + 1) by omega]

lemma psth_edges_eq :
    npArange psth_xmin psth_xmax psth_binsize = (List.range 150).map psthEdge := by
  unfold npArange
  have h1 : (psth_xmax - psth_xmin) / psth_binsize = ((150 : ℤ) : ℚ) := by
    norm_num [psth_xmax, psth_xmin, psth_binsize]
  rw [h1, Int.ceil_intCast]
  simp only [psthEdge, psth_xmin, psth_binsize]
  rfl

lemma npHistogram_psth_edges (spikes : List ℚ) :
    npHistogram spikes ((List.range 150).map psthEdge) =
      (List.range 149).map (fun k =>
        (spikes.filter (fun x => decide (psthEdge k ≤ x) &&
          (if k + 1 = 149 then decide (x ≤ psthEdge (k + 1))
           else decide (x < psthEdge (k + 1))))).length) := by
  rw [List.range_eq_range' 150, List.range_eq_range' 149]
  have h := npHistogram_range' spikes psthEdge 149 0
  simpa using h

theorem unitPsth_window_counterexample :
    unitPsthMake [[0]] ≠ some (claimPsth [[0]]) := by
  intro h
  have hmk : unitPsthMake [[0]] = some (compute_psth [[0]]) := rfl
  rw [hmk] at h
  have h1 := congrArg (fun p : List ℚ × List ℚ => p.1.length) (Option.some.inj h)
  simp only [compute_psth, psth_edges_eq, npHistogram_psth_edges, claimPsth,
    List.length_map, List.length_range] at h1
  omega

theorem unitPsth_stores (trains : List (List ℚ)) :
    unitPsthMake trains =
      if trains = [] then none else some (claimPsthAmended trains) := by
  cases trains with
  | nil => rfl
  | cons a l =>
      have hne : ¬ ((a :: l).length = 0) := by simp
      have hnil : ¬ (a :: l = []) := by simp
      rw [unitPsthMake, if_neg hne, if_neg hnil]
      simp only [compute_psth, claimPsthAmended]
      rw [psth_edges_eq, npHistogram_psth_edges, List.map_map]
      refine congrArg some (congrArg₂ Prod.mk ?_ ?_)
      · apply List.map_congr_left
        intro k _
        simp only [Function.comp_apply]
        rw [div_div]
        norm_num [psth_binsize]
      · rw [show (List.range 150) = 0 :: (List.range 149).map Nat.succ from
          List.range_succ_eq_map 149]
        simp [List.map_map, Function.comp_def]

/-! ## `EphysIngestion.make` (`pipeline/ingest/ephys_ingest.py`)

The loader output for one probe (`ephys_data`) is an `EphysData` record; the
fetched `lab.Probe` row is carried pre-resolved in its `probe` field, and the
`ProbeType.Electrode` metadata environment `meta` is shared with
`gen_electrode_config`. The datajoint store is `DBState`. numpy boolean
masking and `np.where(units == u)` grouping over parallel per-spike arrays are
`npMask`/`npSelect`; `set(units)` over the small positive unit ids iterates
ascending (CPython small-int hashing), modelled by `pySetInts`. Errors carry
the `DBState` at the moment of the raise. -/

/-- `v[units > 0]`: numpy boolean-mask selection on a parallel array. -/
def npMask {α : Type} (units : List Int) (v : List α) : List α :=
  ((units.zip v).filter (fun p => decide (0 < p.1))).map Prod.snd

/-- `v[np.where(units == u)]`: select the entries of a parallel array whose
unit id equals `u`, preserving order. -/
def npSelect {α : Type} (units : List Int) (v : List α) (u : Int) : List α :=
  ((units.zip v).filter (fun p => decide (p.1 = u))).map Prod.snd

/-- `set(units)` for small nonnegative machine ints: distinct values in
ascending iteration order. -/
def pySetInts (l : List Int) : List Int :=
  List.insertionSort (fun a b : Int => a ≤ b) l.dedup

/-- The surviving (non-noise) unit ids: `set(units)` after the `units > 0`
mask. -/
def survivingUnits (units0 : List Int) : List Int := pySetInts (npMask units0 units0)

/-- The per-unit spike-second trains built by `make`: mask noise spikes,
divide the masked sample indices by the sampling rate, group by surviving unit
id in original order (`spikes[np.where(units == u)] for u in set(units)`). -/
def unitSpikeTrains (units0 : List Int) (spikes0 : List ℚ) (rate : ℚ) :
    List (List ℚ) :=
  let units := npMask units0 units0
  let spikes := (npMask units0 spikes0).map (fun t => t / rate)
  (pySetInts units).map (fun u => npSelect units spikes u)

/-- The per-unit grouping of a parallel per-spike array (sites, depths). -/
def unitTrains {α : Type} (units0 : List Int) (v0 : List α) : List (List α) :=
  let units := npMask units0 units0
  (pySetInts units).map (fun u => npSelect units (npMask units0 v0) u)

/-- One per-probe record returned by `loader.load_ephys` (the `probe` field is
the already-fetched `lab.Probe` row, opaque). -/
structure EphysData where
  probe : String
  electrodes : List Nat
  sampling_rate : ℚ
  adapter : String
  headstage : String
  clustering_method : String
  clustering_time : String
  quality_control : Bool
  manual_curation : Bool
  clustering_note : String
  unit : List Int
  spike_times : List ℚ
  spike_sites : List Nat
  spike_depths : List ℚ
  unit_electrode : List Nat
  unit_quality : List String
  unit_posx : List ℚ
  unit_posy : List ℚ
  unit_amp : List ℚ
  unit_snr : List ℚ
  waveform : List (List (List ℚ))
  ephys_files : List String

/-- Python indexing `l[i]`, raising `IndexError` when out of range. -/
def pyGet {α : Type} (l : List α) (i : Nat) : Except String α :=
  match l.get? i with
  | some x => .ok x
  | none => .error "IndexError"

/-- An assembled `ephys.Unit` row (`unit_list` entry); the electrode reference
is the `chn2electrodes` KEY for the cluster's max-amplitude site. -/
structure UnitRow where
  session : String
  insertion_number : Nat
  clustering_method : String
  unit : Int
  electrode : Nat
  unit_quality : String
  unit_posx : ℚ
  unit_posy : ℚ
  unit_amp : ℚ
  unit_snr : ℚ
  spike_times : List ℚ
  spike_sites : List Nat
  spike_depths : List ℚ
deriving DecidableEq

/-- An assembled `ephys.Unit.Waveform` row (`waveform_list` entry). -/
structure WaveformRow where
  session : String
  insertion_number : Nat
  clustering_method : String
  unit : Int
  waveform : List ℚ
deriving DecidableEq

/-- Lines 95–136 of `make` for a jrclust-method probe (the only methods that
reach this point): remove noise clusters, convert sample indices to seconds,
group per surviving unit, resolve each unit's electrode through
`chn2electrodes` (`KeyError` when the site is not among the probe's
electrodes), and build one unit record plus one waveform record per unit
(`wf_chn_idx = 0`). The records are returned, NOT inserted — mirroring the
source, where `unit_list`/`waveform_list` are built and then dropped. -/
def assembleUnits (sess : String) (inum : Nat) (method : String) (d : EphysData) :
    Except String (List UnitRow × List WaveformRow) := do
  let su := survivingUnits d.unit
  let unit_spikes := unitSpikeTrains d.unit d.spike_times d.sampling_rate
  let unit_spike_sites := unitTrains d.unit d.spike_sites
  let unit_spike_depths := unitTrains d.unit d.spike_depths
  let rows ← su.enum.mapM (fun p => do
    let i := p.1
    let u := p.2
    let ue ← pyGet d.unit_electrode i
    if ue ∈ d.electrodes then do
      let uq ← pyGet d.unit_quality i
      let px ← pyGet d.unit_posx i
      let py ← pyGet d.unit_posy i
      let ua ← pyGet d.unit_amp i
      let usnr ← pyGet d.unit_snr i
      let wf ← pyGet d.waveform i
      let wf0 ← pyGet wf 0
      pure ((⟨sess, inum, method, u, ue, uq, px, py, ua, usnr,
          unit_spikes.getD i [], unit_spike_sites.getD i [],
          unit_spike_depths.getD i []⟩ : UnitRow),
        (⟨sess, inum, method, u, wf0⟩ : WaveformRow))
    else throw "KeyError")
  pure (rows.map Prod.fst, rows.map Prod.snd)

/-- Error raised during one `make` call, paired below with the store state at
the moment of the raise. -/
inductive MakeErr where
  | unsupportedMethod (method : String)
  | electrodeConfigError
  | assembleError (e : String)
  | attributeError
deriving DecidableEq

/-- A `ProbeInsertion` row. -/
structure ProbeInsertionRow where
  session : String
  insertion_number : Nat
  probe_key : String
  e_config : ECKey
deriving DecidableEq

/-- A `ProbeInsertion.RecordingSystemSetup` row. -/
structure RecordingSystemSetupRow where
  session : String
  insertion_number : Nat
  sampling_rate : ℚ
  adapter : String
  headstage : String
deriving DecidableEq

/-- A `Clustering` row. -/
structure ClusteringRow where
  session : String
  insertion_number : Nat
  clustering_method : String
  clustering_time : String
  quality_control : Bool
  manual_curation : Bool
  clustering_note : String
deriving DecidableEq

/-- The tables touched by ephys ingestion. -/
structure DBState where
  ec : ECState
  probe_insertions : List ProbeInsertionRow
  recording_setups : List RecordingSystemSetupRow
  clusterings : List ClusteringRow
  units : List UnitRow
  waveforms : List WaveformRow
  ephys_ingestions : List String
  ephys_files : List (String × String)
deriving DecidableEq

/-- The per-probe body of `EphysIngestion.make` (`insertion_number` is the
probe's position in the loader output): electrode-config resolution,
`ProbeInsertion` and `RecordingSystemSetup` inserts, the clustering-method
check (which raises AFTER those inserts), the `Clustering` insert, and unit
assembly — whose result the source never inserts. -/
def makeProbe (meta : Nat → String) (sess : String) (st : DBState)
    (p : Nat × EphysData) : Except (MakeErr × DBState) DBState :=
  let inum := p.1
  let d := p.2
  match gen_electrode_config ⟨d.probe, meta⟩ d.electrodes st.ec with
  | none => .error (.electrodeConfigError, st)
  | some (e_config, ec') =>
      let st1 : DBState := { st with
        ec := ec',
        probe_insertions := st.probe_insertions ++ [⟨sess, inum, d.probe, e_config⟩] }
      let st2 : DBState := { st1 with
        recording_setups := st1.recording_setups ++
          [⟨sess, inum, d.sampling_rate, d.adapter, d.headstage⟩] }
      if d.clustering_method = "jrclust_v3" ∨ d.clustering_method = "jrclust_v4" then
        let st3 : DBState := { st2 with
          clusterings := st2.clusterings ++
            [⟨sess, inum, d.clustering_method, d.clustering_time, d.quality_control,
              d.manual_curation, d.clustering_note⟩] }
        match assembleUnits sess inum d.clustering_method d with
        | .error e => .error (.assembleError e, st3)
        | .ok _assembled => .ok st3
      else .error (.unsupportedMethod d.clustering_method, st2)

/-- `f.as_posix()` for one element `f` of the collected `ephys_files`. Each
element is a per-probe path LIST (appended whole by
`ephys_files.append(ephys_data.pop('ephys_files'))`, line 64), not a single
path, so the attribute access raises `AttributeError`. -/
def pyListAsPosix (_f : List String) : Except String String :=
  .error "AttributeError"

/-- `EphysIngestion.make`: loop over the loader's per-probe records, insert
the `EphysIngestion` master row (`self.insert1(key)`, line 140), then build
and insert the `EphysFile` rows. The comprehension
`[... f.as_posix() for f in ephys_files]` (line 141) iterates over the list
of per-probe path LISTS, so it raises `AttributeError` on its first element
whenever at least one probe was ingested; only a zero-probe session (empty
comprehension) completes normally. -/
def ephysIngestionMake (meta : Nat → String) (sess : String)
    (all_ephys_data : List EphysData) (st : DBState) :
    Except (MakeErr × DBState) DBState := do
  let stf ← all_ephys_data.enum.foldlM (makeProbe meta sess) st
  let st1 : DBState := { stf with
    ephys_ingestions := stf.ephys_ingestions ++ [sess] }
  match (all_ephys_data.map (fun d => d.ephys_files)).mapM pyListAsPosix with
  | .error _ => .error (.attributeError, st1)
  | .ok fps => pure { st1 with
      ephys_files := st1.ephys_files ++ fps.map (fun f => (sess, f)) }

lemma gen_ec_some (env : ECEnv) (l : List Nat) (stec : ECState) (h : l ≠ []) :
    ∃ k ec2, gen_electrode_config env l stec = some (k, ec2) := by
  have hmapne : (l.map (fun eid => (eid, env.meta eid))).map Prod.fst ≠ [] := by
    intro hcon
    apply h
    have := congrArg List.length hcon
    simp only [List.length_map, List.length_nil] at this
    exact List.eq_nil_of_length_eq_zero this
  obtain ⟨nm, hnm⟩ := ecNameCore_isSome hmapne
  by_cases hany : (stec.configs.any (fun r => r.electrode_config_hash ==
      dict_to_hash (pyDict (l.map (fun eid => (eid, env.meta eid)))))) = true
  · exact ⟨⟨env.probe_key, nm⟩, stec, by
      simp only [gen_electrode_config, hnm, hany, if_true]⟩
  · refine ⟨⟨env.probe_key, nm⟩,
      { configs := stec.configs ++ [⟨env.probe_key, nm,
          dict_to_hash (pyDict (l.map (fun eid => (eid, env.meta eid))))⟩],
        groups := stec.groups ++ [⟨env.probe_key, nm, 0⟩],
        config_electrodes := stec.config_electrodes ++
          (l.map (fun eid => (eid, env.meta eid))).map
            (fun m => ⟨env.probe_key, nm, m.1⟩) }, ?_⟩
    simp only [gen_electrode_config, hnm, hany, Bool.false_eq_true, if_neg,
      not_false_iff]

lemma ephysIngestionMake_error (meta : Nat → String) (sess : String) (d : EphysData)
    (st : DBState) (e : MakeErr × DBState)
    (h : makeProbe meta sess st (0, d) = .error e) :
    ephysIngestionMake meta sess [d] st = .error e := by
  unfold ephysIngestionMake
  show (List.foldlM (makeProbe meta sess) st (List.enum [d]) >>=
    fun stf => _) = _
  have h1 : List.enum [d] = [(0, d)] := rfl
  rw [h1]
  show (makeProbe meta sess st (0, d) >>= fun s => List.foldlM _ s []) >>= _ = _
  rw [h]
  rfl

/-- The empty store. -/
def db0 : DBState := ⟨⟨[], [], []⟩, [], [], [], [], [], [], []⟩

/-- A well-formed single-probe `jrclust_v3` loader record with two spikes in
one surviving unit (`unit` ids `[1, 1]`). -/
def d1 : EphysData :=
  { probe := "probeA", electrodes := [1], sampling_rate := 100,
    adapter := "adapter0", headstage := "hs0",
    clustering_method := "jrclust_v3", clustering_time := "t0",
    quality_control := false, manual_curation := false, clustering_note := "",
    unit := [1, 1], spike_times := [10, 20], spike_sites := [1, 1],
    spike_depths := [0, 0], unit_electrode := [1], unit_quality := ["good"],
    unit_posx := [0], unit_posy := [0], unit_amp := [1], unit_snr := [1],
    waveform := [[[1]]], ephys_files := ["f0"] }

/-- `d1` with an unsupported clustering method. -/
def d2 : EphysData := { d1 with clustering_method := "kilosort" }

/-- Observation of a failed `make` for the unit-persistence claim: the error
and, at the moment of the raise, the stored Unit and Waveform tables and the
Clustering row count. -/
def makeUnitsErrView (r : Except (MakeErr × DBState) DBState) :
    Option (MakeErr × List UnitRow × List WaveformRow × Nat) :=
  match r with
  | .error (e, st) => some (e, st.units, st.waveforms, st.clusterings.length)
  | .ok _ => none

/-- Observation of a failed `make`: the error and the row counts of
ProbeInsertion, RecordingSystemSetup, ElectrodeConfig and Clustering at the
moment of the raise. -/
def makeErrView (r : Except (MakeErr × DBState) DBState) :
    Option (MakeErr × Nat × Nat × Nat × Nat) :=
  match r with
  | .error (e, st) => some (e, st.probe_insertions.length,
      st.recording_setups.length, st.ec.configs.length, st.clusterings.length)
  | .ok _ => none

/-- C1 (code bug, two ways): the claim's successful-run terminal state is
unreachable, and the assembled unit records are never inserted. On the
jrclust_v3 probe `d1` the per-probe loop completes and the assembly builds one
unit record and one waveform record (`unit_list`/`waveform_list`, lines
117–136) that no code ever inserts; `make` then inserts the master row and
crashes with `AttributeError` at the `EphysFile` insert (line 141 calls
`f.as_posix()` on the per-probe path lists collected at line 64), so `make`
never returns normally on a session with a probe. At the moment of the crash
the store holds the Clustering row but ZERO Unit rows and ZERO Waveform
rows — contradicting `make`'s own docstring ("insert data into: ... Unit and
Unit.Waveform"). -/
theorem ephys_make_drops_units :
    makeUnitsErrView (ephysIngestionMake (fun _ => "meta1") "s1" [d1] db0) =
        some (.attributeError, [], [], 1) ∧
      (assembleUnits "s1" 0 "jrclust_v3" d1).toOption.map
        (fun p => (p.1.length, p.2.length)) = some (1, 1) := ⟨rfl, rfl⟩

/-- C2 counterexample: on the probe `d2` with unsupported clustering method
`"kilosort"`, at the moment the unsupported-method error is raised the store
already holds 1 ProbeInsertion row, 1 RecordingSystemSetup row and 1
ElectrodeConfig row for that probe (and 0 Clustering rows) — the check at
line 85 runs only after the inserts of lines 73–80. -/
theorem ephys_make_unsupported_after_writes :
    makeErrView (ephysIngestionMake (fun _ => "meta1") "s1" [d2] db0) =
      some (.unsupportedMethod "kilosort", 1, 1, 1, 0) := rfl

/-- C2, amended: for a single-probe loader output whose clustering method is
outside `{jrclust_v3, jrclust_v4}` (and a resolvable, nonempty electrode
list), `make` raises the unsupported-method error BEFORE the `Clustering`
insert — at the moment of the raise no Clustering, Unit, Waveform,
EphysIngestion or EphysFile row has been inserted — but AFTER the
ElectrodeConfig resolution and the ProbeInsertion and RecordingSystemSetup
inserts for that probe, which are already in the store. -/
theorem make_unsupported_method (meta : Nat → String) (sess : String)
    (d : EphysData) (st : DBState)
    (hm : ¬ (d.clustering_method = "jrclust_v3" ∨ d.clustering_method = "jrclust_v4"))
    (he : d.electrodes ≠ []) :
    ∃ st', ephysIngestionMake meta sess [d] st =
        .error (.unsupportedMethod d.clustering_method, st') ∧
      st'.clusterings = st.clusterings ∧
      st'.units = st.units ∧
      st'.waveforms = st.waveforms ∧
      st'.ephys_ingestions = st.ephys_ingestions ∧
      st'.ephys_files = st.ephys_files ∧
      st'.probe_insertions.length = st.probe_insertions.length + 1 ∧
      st'.recording_setups.length = st.recording_setups.length + 1 := by
  obtain ⟨k, ec2, hgen⟩ := gen_ec_some ⟨d.probe, meta⟩ d.electrodes st.ec he
  refine ⟨{ st with
      ec := ec2,
      probe_insertions := st.probe_insertions ++ [⟨sess, 0, d.probe, k⟩],
      recording_setups := st.recording_setups ++
        [⟨sess, 0, d.sampling_rate, d.adapter, d.headstage⟩] },
    ?_, rfl, rfl, rfl, rfl, rfl, by simp, by simp⟩
  apply ephysIngestionMake_error
  simp only [makeProbe]
  rw [hgen]
  simp only [if_neg hm]

/-- Witness for the amended C2 at the concrete probe `d2` (method
`"kilosort"`) over the empty store. -/
theorem make_unsupported_method_witness :
    ∃ st', ephysIngestionMake (fun _ => "meta1") "s1" [d2] db0 =
        .error (.unsupportedMethod d2.clustering_method, st') ∧
      st'.clusterings = db0.clusterings ∧
      st'.units = db0.units ∧
      st'.waveforms = db0.waveforms ∧
      st'.ephys_ingestions = db0.ephys_ingestions ∧
      st'.ephys_files = db0.ephys_files ∧
      st'.probe_insertions.length = db0.probe_insertions.length + 1 ∧
      st'.recording_setups.length = db0.recording_setups.length + 1 :=
  make_unsupported_method (fun _ => "meta1") "s1" d2 db0 (by decide) (by decide)

/-- C6: unit assembly excludes noise and converts samples to seconds. With
per-spike unit ids `[-1, 0, 3, 5]` (one spike each, marked `1, 2, 3, 4`)
exactly the units `{3, 5}` survive, and their spike arrays `[[3], [4]]`
contain neither of the spikes (`1`, `2`) attributed to ids `≤ 0`. With
v3-style ids `[-1, -1, 2, 2, 2]`, spike samples `[10, 20, 30, 40, 50]` at
100 Hz, the single surviving unit `2` has spike seconds
`[0.3, 0.4, 0.5]` in original order. -/
theorem unit_assembly_noise_exclusion :
    survivingUnits [-1, 0, 3, 5] = [3, 5] ∧
    unitSpikeTrains [-1, 0, 3, 5] [1, 2, 3, 4] 1 = [[3], [4]] ∧
    unitSpikeTrains [-1, -1, 2, 2, 2] [10, 20, 30, 40, 50] 100 =
      [[3/10, 2/5, 1/2]] := by
  refine ⟨by decide, ?_, ?_⟩
  · norm_num [unitSpikeTrains, npMask, npSelect, pySetInts, List.dedup,
      List.insertionSort, List.orderedInsert]
  · norm_num [unitSpikeTrains, npMask, npSelect, pySetInts, List.dedup,
      List.insertionSort, List.orderedInsert]
